import Mathlib

/-!
Verification of the LiveNeuron 2D brain-activity viewer.

This file gives a shallow embedding, over exact rational arithmetic, of the
view-projection and rendering pipeline of the repository:

* `parseDisplayMode`       — `_parse_display_mode` (identical in
  `src/eelbrain_plotly_viz/viz_2d.py` and `src/liveneuro/_data_loader_helper.py`);
* `calculateViewRange` / `calculateViewRangeMasked` — the two variants of
  `_calculate_view_ranges` (`liveneuro` computes hemisphere ranges over all
  coordinates, `eelbrain_plotly_viz` over the hemisphere-filtered subset);
* `calculateGlobalColormapRange` / `calculateGlobalColormapRangeViz` — the two
  variants of `_calculate_global_colormap_range`;
* `loadNdvarData`          — `_load_ndvar_data`;
* `projectView`, `cell`, `selectReps`, `showArrowMask` — the body of
  `_create_plotly_brain_projection` (hemisphere filtering, 2D projection,
  data-driven binning with per-bin max aggregation, arrow thresholding and
  per-position representative-arrow selection);
* `createButterflyPlot`    — `_create_butterfly_plot`;
* `exportImages`           — `export_images`.

Floating-point values of the program are modelled as rationals; the float
literals 0.05, 0.01, 0.1, 1e-10 appear as 1/20, 1/100, 1/10, 1/10^10.
NumPy's NaN for an empty bin is modelled as `Option.none`.
-/

/-- Minimum of a list of rationals (`np.min` / `.min()`); 0 for the empty
list, which the program never passes. -/
def minL (l : List ℚ) : ℚ :=
  match l with
  | [] => 0
  | a :: t => t.foldl min a

/-- Maximum of a list of rationals (`np.max` / `.max()`); 0 for the empty
list, which the program never passes. -/
def maxL (l : List ℚ) : ℚ :=
  match l with
  | [] => 0
  | a :: t => t.foldl max a

/-- Maximum of a possibly empty list, `none` on `[]`.  Models the value of a
`binned_statistic_2d(..., statistic="max")` cell: NaN (here `none`) for an
empty bin, the maximum of the binned values otherwise. -/
def maxQ (l : List ℚ) : Option ℚ :=
  match l with
  | [] => none
  | a :: t => some (t.foldl max a)

theorem foldl_max_le {t : List ℚ} {a b : ℚ} (ha : a ≤ b) (h : ∀ x ∈ t, x ≤ b) :
    t.foldl max a ≤ b := by
  induction t generalizing a with
  | nil => exact ha
  | cons c t ih =>
    exact ih (max_le ha (h c (List.mem_cons_self c t))) fun x hx => h x (List.mem_cons_of_mem c hx)

theorem le_foldl_max_init (t : List ℚ) (a : ℚ) : a ≤ t.foldl max a := by
  induction t generalizing a with
  | nil => exact le_refl a
  | cons c t ih => exact le_trans (le_max_left a c) (ih (max a c))

theorem le_foldl_max_mem {t : List ℚ} {x : ℚ} (hx : x ∈ t) (a : ℚ) : x ≤ t.foldl max a := by
  induction t generalizing a with
  | nil => cases hx
  | cons c t ih =>
    rw [List.foldl_cons]
    rcases List.mem_cons.1 hx with h | h
    · subst h
      exact le_trans (le_max_right a x) (le_foldl_max_init t (max a x))
    · exact ih h (max a c)

theorem foldl_max_mem (t : List ℚ) (a : ℚ) : t.foldl max a = a ∨ t.foldl max a ∈ t := by
  induction t generalizing a with
  | nil => exact Or.inl rfl
  | cons c t ih =>
    rcases ih (max a c) with h | h
    · rcases max_cases a c with ⟨h2, _⟩ | ⟨h2, _⟩
      · exact Or.inl (by rw [List.foldl_cons, h, h2])
      · exact Or.inr (by rw [List.foldl_cons, h, h2]; exact List.mem_cons_self c t)
    · exact Or.inr (List.mem_cons_of_mem c h)

/-- `maxQ` is `some a` when `a` is a member bounding the whole list. -/
theorem maxQ_eq_some {l : List ℚ} {a : ℚ} (hmem : a ∈ l) (hub : ∀ x ∈ l, x ≤ a) :
    maxQ l = some a := by
  match l with
  | [] => cases hmem
  | b :: t =>
    have h1 : t.foldl max b ≤ a := by
      refine foldl_max_le (hub b (List.mem_cons_self b t)) fun x hx => hub x ?_
      exact List.mem_cons_of_mem b hx
    have h2 : a ≤ t.foldl max b := by
      rcases List.mem_cons.1 hmem with h | h
      · exact h ▸ le_foldl_max_init t b
      · exact le_foldl_max_mem h b
    simpa [maxQ] using le_antisymm h1 h2

theorem foldl_min_le_init (t : List ℚ) (a : ℚ) : t.foldl min a ≤ a := by
  induction t generalizing a with
  | nil => exact le_refl a
  | cons c t ih =>
    rw [List.foldl_cons]
    exact le_trans (ih (min a c)) (min_le_left a c)

theorem foldl_min_le_mem {t : List ℚ} {x : ℚ} (hx : x ∈ t) (a : ℚ) : t.foldl min a ≤ x := by
  induction t generalizing a with
  | nil => cases hx
  | cons c t ih =>
    rw [List.foldl_cons]
    rcases List.mem_cons.1 hx with h | h
    · subst h
      exact le_trans (foldl_min_le_init t (min a x)) (min_le_right a x)
    · exact ih h (min a c)

theorem minL_le {l : List ℚ} {x : ℚ} (hx : x ∈ l) : minL l ≤ x := by
  match l with
  | [] => cases hx
  | a :: t =>
    show t.foldl min a ≤ x
    rcases List.mem_cons.1 hx with h | h
    · exact h ▸ foldl_min_le_init t a
    · exact foldl_min_le_mem h a

theorem le_maxL {l : List ℚ} {x : ℚ} (hx : x ∈ l) : x ≤ maxL l := by
  match l with
  | [] => cases hx
  | a :: t =>
    show x ≤ t.foldl max a
    rcases List.mem_cons.1 hx with h | h
    · exact h ▸ le_foldl_max_init t a
    · exact le_foldl_max_mem h a

/-- A 3D point: a row of the `(n_sources, 3)` coordinate array, or a 3-vector
of a `(n_sources, 3, n_times)` activity slice. -/
structure V3 where
  x : ℚ
  y : ℚ
  z : ℚ
deriving DecidableEq, Inhabited

/-! ## Display-mode parsing (`_parse_display_mode`)

Identical dictionaries in `viz_2d.py` lines 239-290 and
`_data_loader_helper.py` lines 125-176.  The Python `dict` lookup followed by
`raise ValueError` on a missing key is modelled as an `Option`-valued
function, `none` standing for the construction-time `ValueError`. -/

def parseDisplayMode (mode : String) : Option (List String) :=
  if mode = "ortho" then some ["sagittal", "coronal", "axial"]
  else if mode = "x" then some ["sagittal"]
  else if mode = "y" then some ["coronal"]
  else if mode = "z" then some ["axial"]
  else if mode = "xz" then some ["sagittal", "axial"]
  else if mode = "yx" then some ["coronal", "sagittal"]
  else if mode = "yz" then some ["coronal", "axial"]
  else if mode = "l" then some ["left_hemisphere"]
  else if mode = "r" then some ["right_hemisphere"]
  else if mode = "lr" then some ["left_hemisphere", "right_hemisphere"]
  else if mode = "lzr" then some ["left_hemisphere", "axial", "right_hemisphere"]
  else if mode = "lyr" then some ["left_hemisphere", "coronal", "right_hemisphere"]
  else if mode = "lzry" then some ["left_hemisphere", "axial", "right_hemisphere", "coronal"]
  else if mode = "lyrz" then some ["left_hemisphere", "coronal", "right_hemisphere", "axial"]
  else none

/-- The 14 supported display-mode tokens. -/
def supportedDisplayModes : List String :=
  ["ortho", "x", "y", "z", "xz", "yx", "yz", "l", "r", "lr", "lzr", "lyr", "lzry", "lyrz"]

/-- C5: for every one of the 14 supported display-mode tokens, parsing returns
exactly the fixed non-empty ordered view list of the spec table, and for every
other token the parse fails (the construction-time `ValueError`, modelled as
`none`). -/
theorem displayMode_table_total (m : String) (hm : m ∉ supportedDisplayModes) :
    parseDisplayMode "x" = some ["sagittal"] ∧
    parseDisplayMode "y" = some ["coronal"] ∧
    parseDisplayMode "z" = some ["axial"] ∧
    parseDisplayMode "xz" = some ["sagittal", "axial"] ∧
    parseDisplayMode "yx" = some ["coronal", "sagittal"] ∧
    parseDisplayMode "yz" = some ["coronal", "axial"] ∧
    parseDisplayMode "l" = some ["left_hemisphere"] ∧
    parseDisplayMode "r" = some ["right_hemisphere"] ∧
    parseDisplayMode "lr" = some ["left_hemisphere", "right_hemisphere"] ∧
    parseDisplayMode "lzr" = some ["left_hemisphere", "axial", "right_hemisphere"] ∧
    parseDisplayMode "lyr" = some ["left_hemisphere", "coronal", "right_hemisphere"] ∧
    parseDisplayMode "ortho" = some ["sagittal", "coronal", "axial"] ∧
    parseDisplayMode "lzry" = some ["left_hemisphere", "axial", "right_hemisphere", "coronal"] ∧
    parseDisplayMode "lyrz" = some ["left_hemisphere", "coronal", "right_hemisphere", "axial"] ∧
    (∀ l, parseDisplayMode m = some l → l ≠ []) ∧
    parseDisplayMode m = none := by
  simp only [supportedDisplayModes, List.mem_cons, List.not_mem_nil, or_false] at hm
  push_neg at hm
  obtain ⟨h1, h2, h3, h4, h5, h6, h7, h8, h9, h10, h11, h12, h13, h14⟩ := hm
  have hnone : parseDisplayMode m = none := by
    simp [parseDisplayMode, h1, h2, h3, h4, h5, h6, h7, h8, h9, h10, h11, h12, h13, h14]
  refine ⟨rfl, rfl, rfl, rfl, rfl, rfl, rfl, rfl, rfl, rfl, rfl, rfl, rfl, rfl, ?_, hnone⟩
  intro l hl
  rw [hnone] at hl
  cases hl

/-- Witness for C5 at the concrete unsupported token `"xyz"`. -/
theorem displayMode_table_total_witness :
    "xyz" ∉ supportedDisplayModes ∧ parseDisplayMode "xyz" = none :=
  ⟨by decide, (displayMode_table_total "xyz" (by decide)).2.2.2.2.2.2.2.2.2.2.2.2.2.2.2⟩

/-! ## View axis ranges (`_calculate_view_ranges`)

Two variants exist in the repository.  `liveneuro/_data_loader_helper.py`
lines 178-232 computes the hemisphere ranges over ALL coordinates;
`eelbrain_plotly_viz/viz_2d.py` lines 292-351 computes them over the
hemisphere-filtered subset (with a `[0]`/`[0]` fallback when the subset is
empty).  Both add 5% padding per side, or 0.01 when the axis is degenerate. -/

/-- `[min - pad, max + pad]` with `pad = 5%` of the span, or `0.01` when the
span is not positive (degenerate axis). -/
def padRange (vals : List ℚ) : ℚ × ℚ :=
  let lo := minL vals
  let hi := maxL vals
  let pad := if 0 < hi - lo then (hi - lo) * (1 / 20) else 1 / 100
  (lo - pad, hi + pad)

/-- The per-view 2D coordinate projections of the `liveneuro` variant:
hemisphere views use ALL coordinates (left flips Y). -/
def viewAxesAll (viewName : String) (coords : List V3) : List ℚ × List ℚ :=
  if viewName = "axial" then (coords.map V3.x, coords.map V3.y)
  else if viewName = "sagittal" then (coords.map V3.y, coords.map V3.z)
  else if viewName = "coronal" then (coords.map V3.x, coords.map V3.z)
  else if viewName = "left_hemisphere" then (coords.map fun c => -c.y, coords.map V3.z)
  else if viewName = "right_hemisphere" then (coords.map V3.y, coords.map V3.z)
  else (coords.map V3.x, coords.map V3.y)

/-- `_calculate_view_ranges` of `liveneuro/_data_loader_helper.py` for one
view: `{x: [xmin-pad, xmax+pad], y: [ymin-pad, ymax+pad]}`. -/
def calculateViewRange (viewName : String) (coords : List V3) : (ℚ × ℚ) × (ℚ × ℚ) :=
  (padRange (viewAxesAll viewName coords).1, padRange (viewAxesAll viewName coords).2)

/-- The per-view 2D coordinate projections of the `eelbrain_plotly_viz`
variant: hemisphere views use only the hemisphere-filtered subset, with a
`[0]`,`[0]` fallback when the mask is empty. -/
def viewAxesMasked (viewName : String) (coords : List V3) : List ℚ × List ℚ :=
  if viewName = "axial" then (coords.map V3.x, coords.map V3.y)
  else if viewName = "sagittal" then (coords.map V3.y, coords.map V3.z)
  else if viewName = "coronal" then (coords.map V3.x, coords.map V3.z)
  else if viewName = "left_hemisphere" then
    let sub := coords.filter fun c => decide (c.x ≤ 0)
    if sub.isEmpty then ([0], [0]) else (sub.map fun c => -c.y, sub.map V3.z)
  else if viewName = "right_hemisphere" then
    let sub := coords.filter fun c => decide (0 ≤ c.x)
    if sub.isEmpty then ([0], [0]) else (sub.map V3.y, sub.map V3.z)
  else (coords.map V3.x, coords.map V3.y)

/-- `_calculate_view_ranges` of `eelbrain_plotly_viz/viz_2d.py` for one
view. -/
def calculateViewRangeMasked (viewName : String) (coords : List V3) : (ℚ × ℚ) × (ℚ × ℚ) :=
  (padRange (viewAxesMasked viewName coords).1, padRange (viewAxesMasked viewName coords).2)

theorem minL_map_neg (l : List ℚ) : minL (l.map fun a => -a) = -maxL l := by
  match l with
  | [] => simp [minL, maxL]
  | a :: t =>
    show (t.map fun a => -a).foldl min (-a) = -(t.foldl max a)
    induction t generalizing a with
    | nil => rfl
    | cons c t ih =>
      rw [List.map_cons, List.foldl_cons, List.foldl_cons, min_neg_neg]
      exact ih (max a c)

theorem maxL_map_neg (l : List ℚ) : maxL (l.map fun a => -a) = -minL l := by
  match l with
  | [] => simp [minL, maxL]
  | a :: t =>
    show (t.map fun a => -a).foldl max (-a) = -(t.foldl min a)
    induction t generalizing a with
    | nil => rfl
    | cons c t ih =>
      rw [List.map_cons, List.foldl_cons, List.foldl_cons, max_neg_neg]
      exact ih (min a c)

/-- C3 counterexample: the claim that the left- and right-hemisphere ranges
are numerically identical, and computed over all coordinates in both
implementations, is false.  At coordinates `[(0,1,0), (0,2,5)]` the
`liveneuro` variant (which does use all coordinates) produces x-ranges
`[-2.05, -0.95]` (left) and `[0.95, 2.05]` (right) — mirror images, not
identical; and at `[(-1,0,0), (1,9,9)]` the `eelbrain_plotly_viz` variant
computes the left range from the filtered subset, differing from the
all-coordinates range. -/
theorem hemisphere_ranges_counterexample :
    (calculateViewRange "left_hemisphere" [⟨0, 1, 0⟩, ⟨0, 2, 5⟩]).1 ≠
      (calculateViewRange "right_hemisphere" [⟨0, 1, 0⟩, ⟨0, 2, 5⟩]).1 ∧
    calculateViewRangeMasked "left_hemisphere" [⟨-1, 0, 0⟩, ⟨1, 9, 9⟩] ≠
      calculateViewRange "left_hemisphere" [⟨-1, 0, 0⟩, ⟨1, 9, 9⟩] := by
  constructor <;> with_unfolding_all decide

/-- C3 (amended): for every coordinate set, the `liveneuro` variant computes
the hemisphere ranges over all coordinates, so the left and right y-ranges
are identical and the x-ranges are mirror images of equal width (identical
scale, not identical values); the `eelbrain_plotly_viz` variant instead
computes the left-hemisphere range over the `x ≤ 0` subset whenever that
subset is non-empty. -/
theorem hemisphere_ranges_mirror (coords : List V3)
    (hf : (coords.filter fun c => decide (c.x ≤ 0)) ≠ []) :
    (calculateViewRange "left_hemisphere" coords).2 =
      (calculateViewRange "right_hemisphere" coords).2 ∧
    (calculateViewRange "left_hemisphere" coords).1.1 =
      -(calculateViewRange "right_hemisphere" coords).1.2 ∧
    (calculateViewRange "left_hemisphere" coords).1.2 =
      -(calculateViewRange "right_hemisphere" coords).1.1 ∧
    (calculateViewRange "left_hemisphere" coords).1.2 -
        (calculateViewRange "left_hemisphere" coords).1.1 =
      (calculateViewRange "right_hemisphere" coords).1.2 -
        (calculateViewRange "right_hemisphere" coords).1.1 ∧
    calculateViewRangeMasked "left_hemisphere" coords =
      calculateViewRange "left_hemisphere" (coords.filter fun c => decide (c.x ≤ 0)) := by
  have hax : viewAxesAll "left_hemisphere" coords =
      (coords.map fun c => -c.y, coords.map V3.z) := rfl
  have hax2 : viewAxesAll "right_hemisphere" coords =
      (coords.map V3.y, coords.map V3.z) := rfl
  have hmin : minL (coords.map fun c => -c.y) = -maxL (coords.map V3.y) := by
    have : (coords.map fun c => -c.y) = (coords.map V3.y).map fun a => -a := by
      rw [List.map_map]; rfl
    rw [this, minL_map_neg]
  have hmax : maxL (coords.map fun c => -c.y) = -minL (coords.map V3.y) := by
    have : (coords.map fun c => -c.y) = (coords.map V3.y).map fun a => -a := by
      rw [List.map_map]; rfl
    rw [this, maxL_map_neg]
  refine ⟨rfl, ?_, ?_, ?_, ?_⟩
  · simp only [calculateViewRange, hax, hax2, padRange, hmin, hmax]
    ring_nf
  · simp only [calculateViewRange, hax, hax2, padRange, hmin, hmax]
    ring_nf
  · simp only [calculateViewRange, hax, hax2, padRange, hmin, hmax]
    ring_nf
  · have hsub : (coords.filter fun c => decide (c.x ≤ 0)).isEmpty = false := by
      rcases h : (coords.filter fun c => decide (c.x ≤ 0)) with _ | _
      · exact absurd h hf
      · rw [h]; rfl
    have hm : viewAxesMasked "left_hemisphere" coords =
        ((coords.filter fun c => decide (c.x ≤ 0)).map fun c => -c.y,
         (coords.filter fun c => decide (c.x ≤ 0)).map V3.z) := by
      show (if (coords.filter fun c => decide (c.x ≤ 0)).isEmpty then _ else _) = _
      rw [hsub]
      simp
    have hall : viewAxesAll "left_hemisphere" (coords.filter fun c => decide (c.x ≤ 0)) =
        ((coords.filter fun c => decide (c.x ≤ 0)).map fun c => -c.y,
         (coords.filter fun c => decide (c.x ≤ 0)).map V3.z) := rfl
    simp only [calculateViewRangeMasked, calculateViewRange, hm, hall]

/-- Witness for the amended C3 at a concrete coordinate set containing a
left-hemisphere point. -/
theorem hemisphere_ranges_mirror_witness :
    (calculateViewRange "left_hemisphere" [⟨-1, 1, 0⟩, ⟨2, 3, 4⟩]).2 =
      (calculateViewRange "right_hemisphere" [⟨-1, 1, 0⟩, ⟨2, 3, 4⟩]).2 ∧
    (calculateViewRange "left_hemisphere" [⟨-1, 1, 0⟩, ⟨2, 3, 4⟩]).1.1 =
      -(calculateViewRange "right_hemisphere" [⟨-1, 1, 0⟩, ⟨2, 3, 4⟩]).1.2 ∧
    (calculateViewRange "left_hemisphere" [⟨-1, 1, 0⟩, ⟨2, 3, 4⟩]).1.2 =
      -(calculateViewRange "right_hemisphere" [⟨-1, 1, 0⟩, ⟨2, 3, 4⟩]).1.1 ∧
    (calculateViewRange "left_hemisphere" [⟨-1, 1, 0⟩, ⟨2, 3, 4⟩]).1.2 -
        (calculateViewRange "left_hemisphere" [⟨-1, 1, 0⟩, ⟨2, 3, 4⟩]).1.1 =
      (calculateViewRange "right_hemisphere" [⟨-1, 1, 0⟩, ⟨2, 3, 4⟩]).1.2 -
        (calculateViewRange "right_hemisphere" [⟨-1, 1, 0⟩, ⟨2, 3, 4⟩]).1.1 ∧
    calculateViewRangeMasked "left_hemisphere" [⟨-1, 1, 0⟩, ⟨2, 3, 4⟩] =
      calculateViewRange "left_hemisphere"
        ([⟨-1, 1, 0⟩, ⟨2, 3, 4⟩].filter fun c => decide (c.x ≤ 0)) :=
  hemisphere_ranges_mirror [⟨-1, 1, 0⟩, ⟨2, 3, 4⟩] (by decide)

/-! ## Global colormap range (`_calculate_global_colormap_range`)

Two variants.  `liveneuro/_data_loader_helper.py` lines 269-299: `vmin = 0.0`,
`vmax = data max` or a user-supplied override, degenerate guard
`vmax - vmin < 1e-10 → vmax = vmin + 1`.  `eelbrain_plotly_viz/viz_2d.py`
lines 353-379: `vmin = np.min(magnitudes)`, `vmax = np.max(magnitudes)` (no
user override exists in that class), same guard.  The magnitude computation
(`np.linalg.norm` over the space axis, or the raw scalar data) happens in the
caller; both functions are embedded over the flattened magnitude list. -/

/-- `liveneuro` variant: `(global_vmin, global_vmax)` from the optional
magnitude tensor and optional user `vmax`. -/
def calculateGlobalColormapRange (allMags : Option (List ℚ)) (userVmax : Option ℚ) : ℚ × ℚ :=
  let dataMax : ℚ := match allMags with | none => 1 | some l => maxL l
  let globalVmin : ℚ := 0
  let globalVmax : ℚ := match userVmax with | none => dataMax | some v => v
  if globalVmax - globalVmin < 1 / 10 ^ 10 then (globalVmin, globalVmin + 1)
  else (globalVmin, globalVmax)

/-- `eelbrain_plotly_viz` variant: `(np.min mags, np.max mags)` with the same
degenerate guard; `(0, 1)` when no data is loaded. -/
def calculateGlobalColormapRangeViz (allMags : Option (List ℚ)) : ℚ × ℚ :=
  match allMags with
  | none => (0, 1)
  | some l =>
    if maxL l - minL l < 1 / 10 ^ 10 then (minL l, minL l + 1)
    else (minL l, maxL l)

/-- C4 counterexample: the claim that the global color range always satisfies
`vmin = 0.0` is false for the `eelbrain_plotly_viz` variant: for the magnitude
tensor `[2, 3]` it computes `vmin = 2`. -/
theorem colormap_vmin_counterexample :
    calculateGlobalColormapRangeViz (some [2, 3]) = (2, 3) ∧ (2 : ℚ) ≠ 0 := by
  constructor <;> with_unfolding_all decide

/-- C4 (amended): the `liveneuro` variant satisfies the claim — `vmin = 0.0`,
`vmax` is the magnitude maximum unless a user-supplied `vmax` overrides it,
and if `vmax - vmin < 1e-10` then `vmax` is forced to exactly `vmin + 1.0`
(so `vmax ≥ vmin + 1e-10` always holds).  The `eelbrain_plotly_viz` variant
instead sets `vmin` to the minimum of the magnitude tensor, has no user
override, and applies the same degenerate guard. -/
theorem colormap_range_guarded (mags : List ℚ) (uv : Option ℚ) (v : ℚ) :
    (calculateGlobalColormapRange (some mags) uv).1 = 0 ∧
    (1 / 10 ^ 10 : ℚ) ≤ (calculateGlobalColormapRange (some mags) uv).2 ∧
    (calculateGlobalColormapRange (some mags) uv).1 ≤
      (calculateGlobalColormapRange (some mags) uv).2 ∧
    (uv = some v → (1 / 10 ^ 10 : ℚ) ≤ v →
      calculateGlobalColormapRange (some mags) uv = (0, v)) ∧
    (uv = none → (1 / 10 ^ 10 : ℚ) ≤ maxL mags →
      calculateGlobalColormapRange (some mags) uv = (0, maxL mags)) ∧
    (uv = none → maxL mags - 0 < 1 / 10 ^ 10 →
      calculateGlobalColormapRange (some mags) uv = (0, 1)) ∧
    (calculateGlobalColormapRangeViz (some mags)).1 = minL mags ∧
    ((1 / 10 ^ 10 : ℚ) ≤ maxL mags - minL mags →
      calculateGlobalColormapRangeViz (some mags) = (minL mags, maxL mags)) ∧
    (maxL mags - minL mags < 1 / 10 ^ 10 →
      calculateGlobalColormapRangeViz (some mags) = (minL mags, minL mags + 1)) := by
  have hviz : calculateGlobalColormapRangeViz (some mags) =
      if maxL mags - minL mags < 1 / 10 ^ 10 then (minL mags, minL mags + 1)
      else (minL mags, maxL mags) := rfl
  have vizGoals : (calculateGlobalColormapRangeViz (some mags)).1 = minL mags ∧
      ((1 / 10 ^ 10 : ℚ) ≤ maxL mags - minL mags →
        calculateGlobalColormapRangeViz (some mags) = (minL mags, maxL mags)) ∧
      (maxL mags - minL mags < 1 / 10 ^ 10 →
        calculateGlobalColormapRangeViz (some mags) = (minL mags, minL mags + 1)) := by
    refine ⟨?_, ?_, ?_⟩
    · rw [hviz]; split <;> rfl
    · intro hge
      rw [hviz, if_neg (by linarith)]
    · intro hlt
      rw [hviz, if_pos hlt]
  rcases uv with _ | v0
  · have hun : calculateGlobalColormapRange (some mags) none =
        if maxL mags - 0 < 1 / 10 ^ 10 then ((0 : ℚ), (0 : ℚ) + 1)
        else ((0 : ℚ), maxL mags) := rfl
    by_cases hg : maxL mags - 0 < 1 / 10 ^ 10
    · rw [if_pos hg] at hun
      refine ⟨?_, ?_, ?_, ?_, ?_, ?_, vizGoals.1, vizGoals.2.1, vizGoals.2.2⟩
      · rw [hun]
      · rw [hun]; norm_num
      · rw [hun]; norm_num
      · intro huv
        cases huv
      · intro _ hge
        exact absurd hg (by linarith)
      · intro _ _
        rw [hun]; norm_num
    · rw [if_neg hg] at hun
      have hge0 : (1 : ℚ) / 10 ^ 10 ≤ maxL mags := by linarith [not_lt.1 hg]
      refine ⟨?_, ?_, ?_, ?_, ?_, ?_, vizGoals.1, vizGoals.2.1, vizGoals.2.2⟩
      · rw [hun]
      · rw [hun]; exact hge0
      · rw [hun]; show (0 : ℚ) ≤ maxL mags; linarith
      · intro huv
        cases huv
      · intro _ _
        rw [hun]
      · intro _ hlt
        exact absurd hlt (by linarith)
  · have hun : calculateGlobalColormapRange (some mags) (some v0) =
        if v0 - 0 < 1 / 10 ^ 10 then ((0 : ℚ), (0 : ℚ) + 1)
        else ((0 : ℚ), v0) := rfl
    by_cases hg : v0 - 0 < 1 / 10 ^ 10
    · rw [if_pos hg] at hun
      refine ⟨?_, ?_, ?_, ?_, ?_, ?_, vizGoals.1, vizGoals.2.1, vizGoals.2.2⟩
      · rw [hun]
      · rw [hun]; norm_num
      · rw [hun]; norm_num
      · intro huv hge
        injection huv with huv2
        subst huv2
        exact absurd hg (by linarith)
      · intro huv
        cases huv
      · intro huv
        cases huv
    · rw [if_neg hg] at hun
      have hge0 : (1 : ℚ) / 10 ^ 10 ≤ v0 := by linarith [not_lt.1 hg]
      refine ⟨?_, ?_, ?_, ?_, ?_, ?_, vizGoals.1, vizGoals.2.1, vizGoals.2.2⟩
      · rw [hun]
      · rw [hun]; exact hge0
      · rw [hun]; show (0 : ℚ) ≤ v0; linarith
      · intro huv hge
        injection huv with huv2
        subst huv2
        rw [hun]
      · intro huv
        cases huv
      · intro huv
        cases huv

/-- Witness for the amended C4 at the magnitude tensor `[0, 5]` with no user
override. -/
theorem colormap_range_guarded_witness :
    (calculateGlobalColormapRange (some [0, 5]) none).1 = 0 ∧
    (1 / 10 ^ 10 : ℚ) ≤ (calculateGlobalColormapRange (some [0, 5]) none).2 ∧
    (calculateGlobalColormapRange (some [0, 5]) none).1 ≤
      (calculateGlobalColormapRange (some [0, 5]) none).2 ∧
    ((none : Option ℚ) = some 7 → (1 / 10 ^ 10 : ℚ) ≤ 7 →
      calculateGlobalColormapRange (some [0, 5]) none = (0, 7)) ∧
    ((none : Option ℚ) = none → (1 / 10 ^ 10 : ℚ) ≤ maxL [0, 5] →
      calculateGlobalColormapRange (some [0, 5]) none = (0, maxL [0, 5])) ∧
    ((none : Option ℚ) = none → maxL [0, 5] - 0 < 1 / 10 ^ 10 →
      calculateGlobalColormapRange (some [0, 5]) none = (0, 1)) ∧
    (calculateGlobalColormapRangeViz (some [0, 5])).1 = minL [0, 5] ∧
    ((1 / 10 ^ 10 : ℚ) ≤ maxL [0, 5] - minL [0, 5] →
      calculateGlobalColormapRangeViz (some [0, 5]) = (minL [0, 5], maxL [0, 5])) ∧
    (maxL [0, 5] - minL [0, 5] < 1 / 10 ^ 10 →
      calculateGlobalColormapRangeViz (some [0, 5]) = (minL [0, 5], minL [0, 5] + 1)) :=
  colormap_range_guarded [0, 5] none 7

/-! ## Data loading (`_load_ndvar_data`)

`viz_2d.py` lines 196-237 and `liveneuro/_data_loader_helper.py` lines
79-123.  The input is modelled after what the function reads from the NDVar:
per-source coordinates, the time axis, and either a
`(n_sources, 3, n_times)` vector tensor (when a space dimension is present)
or a `(n_sources, n_times)` scalar array.  `np.linalg.norm(..., axis=1)`
applied to one source's `3 × n_times` block is taken as a function parameter
`norm2` (its values are irrational in general).  The function body contains
no `raise` and no shape check of any kind; it is embedded in `Except` to
model the claimed (non-existent) failure path. -/

structure NdvarInput where
  sourceCoords : List V3
  timeValues : List ℚ
  spaceData : Option (List (List (List ℚ)))
  scalarData : List (List ℚ)
deriving DecidableEq

structure BrainData where
  glassBrainData : List (List (List ℚ))
  butterflyData : List (List ℚ)
  sourceCoords : List V3
  timeValues : List ℚ
deriving DecidableEq

/-- `_load_ndvar_data`: extracts coordinates and times, then either takes the
vector tensor and its per-source norms, or copies the scalar data and expands
it to `(n_sources, 1, n_times)`.  No validation is performed. -/
def loadNdvarData (norm2 : List (List ℚ) → List ℚ) (inp : NdvarInput) :
    Except String BrainData :=
  match inp.spaceData with
  | some d => .ok ⟨d, d.map norm2, inp.sourceCoords, inp.timeValues⟩
  | none => .ok ⟨inp.scalarData.map fun row => [row], inp.scalarData,
      inp.sourceCoords, inp.timeValues⟩

/-- C7 counterexample: loading an input whose coordinate count (2) differs
from the source count of the activity array (3), and whose time axis length
(1) differs from the activity time length (2), succeeds — no `DataShapeError`
is raised (no such error exists anywhere in the repository). -/
theorem loadNdvarData_no_validation_counterexample :
    (loadNdvarData (fun _ => []) ⟨[⟨0, 0, 0⟩, ⟨1, 1, 1⟩], [0], none, [[1, 2], [3, 4], [5, 6]]⟩
      ).toOption.map
        (fun bd => (bd.sourceCoords.length, bd.glassBrainData.length, bd.timeValues.length)) =
      some (2, 3, 1) ∧ (2 ≠ 3 ∧ 1 ≠ 2) := by
  exact ⟨rfl, by decide, by decide⟩

/-- C7 (amended): `_load_ndvar_data` performs no shape validation at all — it
always succeeds and passes the coordinates and time axis through verbatim,
whatever the activity array's source or time counts are; shape consistency
relies entirely on the NDVar input invariant, and no `DataShapeError` exists
in the code. -/
theorem loadNdvarData_total (norm2 : List (List ℚ) → List ℚ) (inp : NdvarInput) :
    (loadNdvarData norm2 inp).toOption.map (fun bd => (bd.sourceCoords, bd.timeValues)) =
      some (inp.sourceCoords, inp.timeValues) ∧
    (loadNdvarData norm2 inp).toOption.map
        (fun bd => bd.glassBrainData.length) =
      some (match inp.spaceData with
            | some d => d.length
            | none => inp.scalarData.length) := by
  rcases inp with ⟨c, t, sd, sc⟩
  rcases sd with _ | d
  · refine ⟨rfl, ?_⟩
    show some ((sc.map fun row => [row]).length) = some sc.length
    rw [List.length_map]
  · exact ⟨rfl, rfl⟩

/-! ## Image export (`export_images`)

`viz_2d.py` lines 1642-1709 and `liveneuro/_app_controller_helper.py` lines
293-365.  The whole export is wrapped in a single `try` block: the butterfly
plot is written first, then one file per brain view in order; the first
`write_image` exception jumps to the single `except` handler, which returns
`{"status": "error", "files": exported_files}` with only the files written
before the failure.  The filesystem write is modelled as an oracle
`write : String → Except String Unit` keyed by the asset name. -/

/-- The per-view loop of `export_images`: writes `<view>_view` files in
order, stopping at the first failure. -/
def exportGo (write : String → Except String Unit) :
    List String → List String → String × List String
  | [], acc => ("success", acc)
  | v :: rest, acc =>
    match write (v ++ "_view") with
    | .error _ => ("error", acc)
    | .ok _ => exportGo write rest (acc ++ [v ++ "_view"])

/-- `export_images`: butterfly plot first, then each brain view; a single
`except` handler catches the first failing write and returns the files
accumulated so far with status `error`. -/
def exportImages (views : List String) (write : String → Except String Unit) :
    String × List String :=
  match write "butterfly_plot" with
  | .error _ => ("error", [])
  | .ok _ => exportGo write views ["butterfly_plot"]

/-- A write oracle that fails exactly on the coronal view image. -/
def failingCoronalWrite : String → Except String Unit := fun nm =>
  if nm = "coronal_view" then .error "disk full" else .ok ()

/-- C8 counterexample: with three views where only the middle write fails,
the export stops at the failure: the right-hemisphere file — whose write
would succeed — is never attempted and is absent from the result, so a single
failure is not isolated per file. -/
theorem exportImages_aborts_counterexample :
    exportImages ["left_hemisphere", "coronal", "right_hemisphere"] failingCoronalWrite =
      ("error", ["butterfly_plot", "left_hemisphere_view"]) ∧
    failingCoronalWrite "right_hemisphere_view" = .ok () ∧
    "right_hemisphere_view" ∉
      (exportImages ["left_hemisphere", "coronal", "right_hemisphere"] failingCoronalWrite).2 := by
  refine ⟨rfl, rfl, ?_⟩
  decide

/-- C8 (amended): a failure to write one asset aborts the remaining export:
if the butterfly write and the writes for a prefix `vs1` of the views
succeed and the next view's write fails, the exporter returns status
`"error"` with exactly the files written before the failure and never
attempts the remaining views; only when every write succeeds does it report
success with one file per view plus the butterfly file. -/
theorem exportImages_stops_at_first_failure (write : String → Except String Unit)
    (vs1 vs2 : List String) (v e : String)
    (hb : write "butterfly_plot" = .ok ())
    (h1 : ∀ u ∈ vs1, write (u ++ "_view") = .ok ())
    (hv : write (v ++ "_view") = .error e) :
    exportImages (vs1 ++ v :: vs2) write =
      ("error", "butterfly_plot" :: vs1.map (· ++ "_view")) ∧
    exportImages vs1 write =
      ("success", "butterfly_plot" :: vs1.map (· ++ "_view")) := by
  have go : ∀ (l : List String) (acc : List String),
      (∀ u ∈ l, write (u ++ "_view") = .ok ()) →
      exportGo write (l ++ v :: vs2) acc = ("error", acc ++ l.map (· ++ "_view")) ∧
      exportGo write l acc = ("success", acc ++ l.map (· ++ "_view")) := by
    intro l
    induction l with
    | nil =>
      intro acc _
      constructor
      · show (match write (v ++ "_view") with
          | .error _ => ("error", acc)
          | .ok _ => exportGo write vs2 (acc ++ [v ++ "_view"])) = ("error", acc ++ [].map _)
        rw [hv]
        simp
      · simp [exportGo]
    | cons u l ih =>
      intro acc hok
      have hu : write (u ++ "_view") = .ok () := hok u (List.mem_cons_self u l)
      have hok2 : ∀ w ∈ l, write (w ++ "_view") = .ok () :=
        fun w hw => hok w (List.mem_cons_of_mem u hw)
      constructor
      · show (match write (u ++ "_view") with
          | .error _ => ("error", acc)
          | .ok _ => exportGo write (l ++ v :: vs2) (acc ++ [u ++ "_view"])) = _
        rw [hu]
        rw [(ih (acc ++ [u ++ "_view"]) hok2).1]
        simp
      · show (match write (u ++ "_view") with
          | .error _ => ("error", acc)
          | .ok _ => exportGo write l (acc ++ [u ++ "_view"])) = _
        rw [hu]
        rw [(ih (acc ++ [u ++ "_view"]) hok2).2]
        simp
  have h2 := go vs1 ["butterfly_plot"] h1
  constructor
  · show (match write "butterfly_plot" with
      | .error _ => ("error", [])
      | .ok _ => exportGo write (vs1 ++ v :: vs2) ["butterfly_plot"]) = _
    rw [hb, h2.1]
    simp
  · show (match write "butterfly_plot" with
      | .error _ => ("error", [])
      | .ok _ => exportGo write vs1 ["butterfly_plot"]) = _
    rw [hb, h2.2]
    simp

/-- Witness for the amended C8, with the failing write oracle: the prefix
`["left_hemisphere"]` succeeds, `"coronal"` fails, `["right_hemisphere"]`
remains unattempted. -/
theorem exportImages_stops_witness :
    exportImages (["left_hemisphere"] ++ "coronal" :: ["right_hemisphere"]) failingCoronalWrite =
      ("error", "butterfly_plot" :: ["left_hemisphere"].map (· ++ "_view")) ∧
    exportImages ["left_hemisphere"] failingCoronalWrite =
      ("success", "butterfly_plot" :: ["left_hemisphere"].map (· ++ "_view")) :=
  exportImages_stops_at_first_failure failingCoronalWrite ["left_hemisphere"]
    ["right_hemisphere"] "coronal" "disk full" rfl
    (fun u hu => by rw [List.mem_singleton] at hu; subst hu; rfl) rfl

/-! ## Butterfly plot (`create_butterfly_plot` / `_create_butterfly_plot`)

`viz_2d.py` lines 882-1034 and `liveneuro/_plot_factory_helper.py` lines
119-294.  The data content of the produced figure is embedded: unit
auto-scaling (applied to `data_to_plot = butterfly_data.copy()`), the bounded
subset of individual source traces (stride `max(1, n//20)`, first 10), the
mean and max traces, the y-range, and the time marker.  Pixel heights,
margins and legend text are plotly layout configuration and are not part of
the figure data.  The method assigns no attribute of `self`; the embedding
makes that explicit by returning the state unchanged alongside the figure. -/

structure BflyState where
  butterflyData : List (List ℚ)
  glassBrainData : List (List (List ℚ))
  timeValues : List ℚ
  showMaxOnly : Bool
  showLabels : Bool
deriving DecidableEq

structure BflyFigure where
  sourceTraces : List (List ℚ)
  meanTrace : List ℚ
  maxTrace : List ℚ
  scaleFactor : ℚ
  unitSuffix : String
  yRange : ℚ × ℚ
  timeMarker : Option ℚ
deriving DecidableEq

/-- The butterfly-plot renderer: auto-scales a copy of the stored data for
display, draws a capped subset of per-source traces unless `show_max_only`,
and always draws the per-time mean and max traces. -/
def createButterflyPlot (st : BflyState) (selectedTimeIdx : ℕ) : BflyFigure × BflyState :=
  let data := st.butterflyData
  let nSources := data.length
  let nTimes := (data.headD []).length
  let maxAbsVal := maxL ((data.map fun r => r.map abs).flatten)
  let scaleFactor : ℚ :=
    if maxAbsVal < 1 / 10 ^ 10 then 10 ^ 12
    else if maxAbsVal < 1 / 10 ^ 6 then 10 ^ 9
    else if maxAbsVal < 1 / 10 ^ 3 then 10 ^ 6
    else 1
  let unitSuffix : String :=
    if maxAbsVal < 1 / 10 ^ 10 then " (pA)"
    else if maxAbsVal < 1 / 10 ^ 6 then " (nA)"
    else if maxAbsVal < 1 / 10 ^ 3 then " (µA)"
    else ""
  let dataToPlot := data.map fun r => r.map (· * scaleFactor)
  let yMin := minL dataToPlot.flatten
  let yMax := maxL dataToPlot.flatten
  let yMargin := if yMax ≠ yMin then (yMax - yMin) * (1 / 10) else 1
  let step := max 1 (nSources / 20)
  let indicesToPlot := ((List.range nSources).filter fun i => i % step = 0).take 10
  let sourceTraces :=
    if st.showMaxOnly then [] else indicesToPlot.map fun i => dataToPlot.getD i []
  let meanTrace :=
    (List.range nTimes).map fun t => (dataToPlot.map fun r => r.getD t 0).sum / (nSources : ℚ)
  let maxTrace :=
    (List.range nTimes).map fun t => maxL (dataToPlot.map fun r => r.getD t 0)
  let timeMarker :=
    if selectedTimeIdx < st.timeValues.length then some (st.timeValues.getD selectedTimeIdx 0)
    else none
  (⟨sourceTraces, meanTrace, maxTrace, scaleFactor, unitSuffix,
    (yMin - yMargin, yMax + yMargin), timeMarker⟩, st)

/-- C9: rendering the butterfly plot never mutates the stored data —
`butterfly_data`, `glass_brain_data` and `time_values` are unchanged by any
call (the unit auto-scaling is applied to a copy); and on identical data the
mean-trace and max-trace values (and the scale factor and y-range) are the
same whether `show_max_only` is true or false — only the individual source
traces differ (none at all when `show_max_only` is set). -/
theorem butterfly_no_mutation_flag_invariant (st : BflyState) (tIdx : ℕ) :
    (createButterflyPlot {st with showMaxOnly := true} tIdx).2 =
      {st with showMaxOnly := true} ∧
    (createButterflyPlot {st with showMaxOnly := false} tIdx).2 =
      {st with showMaxOnly := false} ∧
    (createButterflyPlot st tIdx).2.butterflyData = st.butterflyData ∧
    (createButterflyPlot st tIdx).2.glassBrainData = st.glassBrainData ∧
    (createButterflyPlot st tIdx).2.timeValues = st.timeValues ∧
    (createButterflyPlot {st with showMaxOnly := true} tIdx).1.meanTrace =
      (createButterflyPlot {st with showMaxOnly := false} tIdx).1.meanTrace ∧
    (createButterflyPlot {st with showMaxOnly := true} tIdx).1.maxTrace =
      (createButterflyPlot {st with showMaxOnly := false} tIdx).1.maxTrace ∧
    (createButterflyPlot {st with showMaxOnly := true} tIdx).1.scaleFactor =
      (createButterflyPlot {st with showMaxOnly := false} tIdx).1.scaleFactor ∧
    (createButterflyPlot {st with showMaxOnly := true} tIdx).1.yRange =
      (createButterflyPlot {st with showMaxOnly := false} tIdx).1.yRange ∧
    (createButterflyPlot {st with showMaxOnly := true} tIdx).1.sourceTraces = [] :=
  ⟨rfl, rfl, rfl, rfl, rfl, rfl, rfl, rfl, rfl, rfl⟩

/-! ## Brain projection (`_create_plotly_brain_projection`)

`viz_2d.py` lines 1125-1342 and `liveneuro/_plot_factory_helper.py` lines
405-710.  The function receives the coordinate array, the per-source activity
magnitudes for the time slice (`activity_magnitude`, computed by the caller
as `np.linalg.norm` of the same vectors for C=3 data), and reads the vector
components.  The parallel NumPy arrays (`active_coords`, `active_activity`,
`active_vectors`, `active_indices`), which are always filtered by one common
mask, are embedded as one list of per-source records. -/

structure PEntry where
  idx : ℕ
  coord : V3
  act : ℚ
  vec : V3
deriving DecidableEq, Inhabited

/-- The aligned input arrays zipped with `active_indices = np.arange(n)`. -/
def entries (coords : List V3) (act : List ℚ) (vecs : List V3) : List PEntry :=
  (List.range coords.length).map fun i =>
    ⟨i, coords.getD i default, act.getD i 0, vecs.getD i default⟩

/-- The hemisphere filtering step: `left_mask = coords[:,0] <= 0` (resp.
`>= 0`), and the arrays are filtered only `if np.any(mask)` — when no source
satisfies the predicate the filter is skipped and all sources are kept. -/
def hemiFilter (viewName : String) (es : List PEntry) : List PEntry :=
  if viewName = "left_hemisphere" then
    let f := es.filter fun e => decide (e.coord.x ≤ 0)
    if f.isEmpty then es else f
  else if viewName = "right_hemisphere" then
    let f := es.filter fun e => decide (0 ≤ e.coord.x)
    if f.isEmpty then es else f
  else es

/-- One projected source: 2D position, activity, projected vector components,
original index. -/
structure ActiveSrc where
  px : ℚ
  py : ℚ
  act : ℚ
  u : ℚ
  v : ℚ
  idx : ℕ
deriving DecidableEq, Inhabited

/-- The per-view 2D projection of coordinates and vector components (left
hemisphere flips Y and the Y vector component). -/
def projectEntry (viewName : String) (e : PEntry) : ActiveSrc :=
  if viewName = "axial" then ⟨e.coord.x, e.coord.y, e.act, e.vec.x, e.vec.y, e.idx⟩
  else if viewName = "sagittal" then ⟨e.coord.y, e.coord.z, e.act, e.vec.y, e.vec.z, e.idx⟩
  else if viewName = "coronal" then ⟨e.coord.x, e.coord.z, e.act, e.vec.x, e.vec.z, e.idx⟩
  else if viewName = "left_hemisphere" then
    ⟨-e.coord.y, e.coord.z, e.act, -e.vec.y, e.vec.z, e.idx⟩
  else if viewName = "right_hemisphere" then
    ⟨e.coord.y, e.coord.z, e.act, e.vec.y, e.vec.z, e.idx⟩
  else ⟨e.coord.x, e.coord.y, e.act, e.vec.x, e.vec.y, e.idx⟩

/-- Hemisphere filtering followed by the per-view projection: the
`(x_coords, y_coords, active_activity, u_vectors, v_vectors,
active_indices)` arrays of the source. -/
def projectView (viewName : String) (coords : List V3) (act : List ℚ) (vecs : List V3) :
    List ActiveSrc :=
  (hemiFilter viewName (entries coords act vecs)).map (projectEntry viewName)

theorem projectEntry_idx (viewName : String) (e : PEntry) :
    (projectEntry viewName e).idx = e.idx := by
  unfold projectEntry
  split_ifs <;> rfl

theorem entries_length (coords : List V3) (act : List ℚ) (vecs : List V3) :
    (entries coords act vecs).length = coords.length := by
  unfold entries
  rw [List.length_map, List.length_range]

theorem entries_coord_mem {coords : List V3} {act : List ℚ} {vecs : List V3} {e : PEntry}
    (he : e ∈ entries coords act vecs) : e.coord ∈ coords := by
  unfold entries at he
  obtain ⟨i, hi, rfl⟩ := List.mem_map.1 he
  have hlt : i < coords.length := List.mem_range.1 hi
  show coords.getD i default ∈ coords
  have hg : coords.getD i default = coords[i] := by
    rw [List.getD_eq_getElem?_getD, List.getElem?_eq_getElem hlt]
    rfl
  rw [hg]
  exact List.getElem_mem hlt

/-- C10: if no coordinate satisfies the hemisphere predicate (`x ≤ 0` for
left, `x ≥ 0` for right), the hemisphere filtering step is skipped entirely:
all N sources are projected (indices `0..N-1` in order), and for non-empty
data the panel renders the heatmap rather than the
"no active sources" annotation (which occurs only for an empty projected
list). -/
theorem hemisphere_empty_mask_keeps_all (viewName : String) (coords : List V3)
    (act : List ℚ) (vecs : List V3)
    (hview : viewName = "left_hemisphere" ∨ viewName = "right_hemisphere")
    (hL : viewName = "left_hemisphere" → (coords.filter fun c => decide (c.x ≤ 0)) = [])
    (hR : viewName = "right_hemisphere" → (coords.filter fun c => decide (0 ≤ c.x)) = []) :
    (projectView viewName coords act vecs).length = coords.length ∧
    (projectView viewName coords act vecs).map ActiveSrc.idx = List.range coords.length ∧
    (coords ≠ [] → projectView viewName coords act vecs ≠ []) := by
  have hfilter : hemiFilter viewName (entries coords act vecs) = entries coords act vecs := by
    rcases hview with hv | hv
    · subst hv
      have hnil : ((entries coords act vecs).filter fun e => decide (e.coord.x ≤ 0)) = [] := by
        rw [List.filter_eq_nil_iff]
        intro e he hpred
        have hc : e.coord ∈ coords := entries_coord_mem he
        have := List.filter_eq_nil_iff.1 (hL rfl) e.coord hc
        exact this hpred
      show (if ((entries coords act vecs).filter fun e => decide (e.coord.x ≤ 0)).isEmpty
        then entries coords act vecs
        else (entries coords act vecs).filter fun e => decide (e.coord.x ≤ 0)) =
          entries coords act vecs
      rw [hnil]
      rfl
    · subst hv
      have hnil : ((entries coords act vecs).filter fun e => decide (0 ≤ e.coord.x)) = [] := by
        rw [List.filter_eq_nil_iff]
        intro e he hpred
        have hc : e.coord ∈ coords := entries_coord_mem he
        have := List.filter_eq_nil_iff.1 (hR rfl) e.coord hc
        exact this hpred
      show (if ((entries coords act vecs).filter fun e => decide (0 ≤ e.coord.x)).isEmpty
        then entries coords act vecs
        else (entries coords act vecs).filter fun e => decide (0 ≤ e.coord.x)) =
          entries coords act vecs
      rw [hnil]
      rfl
  have hlen : (projectView viewName coords act vecs).length = coords.length := by
    unfold projectView
    rw [hfilter, List.length_map, entries_length]
  refine ⟨hlen, ?_, ?_⟩
  · unfold projectView
    rw [hfilter]
    have h1 : ((entries coords act vecs).map (projectEntry viewName)).map ActiveSrc.idx =
        (entries coords act vecs).map PEntry.idx := by
      rw [List.map_map]
      exact List.map_congr_left fun e _ => projectEntry_idx viewName e
    rw [h1]
    unfold entries
    rw [List.map_map]
    have h2 : (PEntry.idx ∘ fun i =>
        (⟨i, coords.getD i default, act.getD i 0, vecs.getD i default⟩ : PEntry)) = id := rfl
    rw [h2, List.map_id]
  · intro hne hcontra
    have h0 : (projectView viewName coords act vecs).length = 0 := by rw [hcontra]; rfl
    rw [hlen] at h0
    exact hne (List.length_eq_zero.1 h0)

/-- Witness for C10: three sources all strictly in the right hemisphere, left
view requested — the filter is skipped and all three are rendered. -/
theorem hemisphere_empty_mask_keeps_all_witness :
    (projectView "left_hemisphere" [⟨1, 0, 0⟩, ⟨2, 1, 1⟩, ⟨3, 2, 2⟩] [5, 6, 7]
        [⟨1, 0, 0⟩, ⟨0, 1, 0⟩, ⟨0, 0, 1⟩]).length =
      ([⟨1, 0, 0⟩, ⟨2, 1, 1⟩, ⟨3, 2, 2⟩] : List V3).length ∧
    (projectView "left_hemisphere" [⟨1, 0, 0⟩, ⟨2, 1, 1⟩, ⟨3, 2, 2⟩] [5, 6, 7]
        [⟨1, 0, 0⟩, ⟨0, 1, 0⟩, ⟨0, 0, 1⟩]).map ActiveSrc.idx =
      List.range ([⟨1, 0, 0⟩, ⟨2, 1, 1⟩, ⟨3, 2, 2⟩] : List V3).length ∧
    (([⟨1, 0, 0⟩, ⟨2, 1, 1⟩, ⟨3, 2, 2⟩] : List V3) ≠ [] →
      projectView "left_hemisphere" [⟨1, 0, 0⟩, ⟨2, 1, 1⟩, ⟨3, 2, 2⟩] [5, 6, 7]
        [⟨1, 0, 0⟩, ⟨0, 1, 0⟩, ⟨0, 0, 1⟩] ≠ []) :=
  hemisphere_empty_mask_keeps_all "left_hemisphere" [⟨1, 0, 0⟩, ⟨2, 1, 1⟩, ⟨3, 2, 2⟩]
    [5, 6, 7] [⟨1, 0, 0⟩, ⟨0, 1, 0⟩, ⟨0, 0, 1⟩] (Or.inl rfl)
    (fun _ => by with_unfolding_all decide) (fun h => absurd h (by decide))

/-! ## Arrow threshold policy

`viz_2d.py` lines 1287-1304 and `_plot_factory_helper.py` lines 590-604.
`arrow_magnitudes = np.linalg.norm(active_vectors, axis=1)`; for vector data
this is exactly the `activity_magnitude` array the caller passed in (both
are the Euclidean norms of the same time-slice vectors), so the mask is
embedded over the magnitude list itself.  `None` shows every arrow; `"auto"`
keeps magnitudes exceeding 10% of the maximum; a number keeps magnitudes
exceeding that literal value. -/

inductive ArrowThreshold where
  | noThreshold : ArrowThreshold
  | auto : ArrowThreshold
  | value (t : ℚ) : ArrowThreshold
deriving DecidableEq

/-- One magnitude against the threshold (`mx` is the maximum magnitude of
the slice, used only by `"auto"`). -/
def passesThr (thr : ArrowThreshold) (mx a : ℚ) : Bool :=
  match thr with
  | .noThreshold => true
  | .auto => decide (1 / 10 * mx < a)
  | .value t => decide (t < a)

/-- `show_arrow_mask` for the whole slice. -/
def showArrowMask (thr : ArrowThreshold) (mags : List ℚ) : List Bool :=
  mags.map (passesThr thr (maxL mags))

/-- Indices of the arrows kept by the mask. -/
def keptArrows (thr : ArrowThreshold) (mags : List ℚ) : List ℕ :=
  (List.range mags.length).filter fun i => (showArrowMask thr mags).getD i false

theorem getD_map_of_lt {α β : Type} (f : α → β) (l : List α) (i : ℕ) (hi : i < l.length)
    (d : β) (d2 : α) : (l.map f).getD i d = f (l.getD i d2) := by
  rw [List.getD_eq_getElem?_getD, List.getElem?_map, List.getD_eq_getElem?_getD,
    List.getElem?_eq_getElem hi]
  rfl

/-- C6: the set of arrows kept under `"auto"` is a sublist of the set kept
under `None` (which is all of them), so `"auto"` keeps at most as many
arrows; and a numeric threshold keeps exactly the arrows whose magnitude
exceeds that literal value. -/
theorem arrow_threshold_policy (mags : List ℚ) (t : ℚ) :
    keptArrows .noThreshold mags = List.range mags.length ∧
    List.Sublist (keptArrows .auto mags) (keptArrows .noThreshold mags) ∧
    (keptArrows .auto mags).length ≤ (keptArrows .noThreshold mags).length ∧
    keptArrows (.value t) mags =
      (List.range mags.length).filter fun i => decide (t < mags.getD i 0) := by
  have hall : keptArrows .noThreshold mags = List.range mags.length := by
    unfold keptArrows
    rw [List.filter_eq_self]
    intro i hi
    have hlt : i < mags.length := List.mem_range.1 hi
    rw [show showArrowMask .noThreshold mags = mags.map (passesThr .noThreshold (maxL mags))
      from rfl]
    rw [getD_map_of_lt _ _ _ hlt _ 0]
    rfl
  have hsub : List.Sublist (keptArrows .auto mags) (keptArrows .noThreshold mags) := by
    rw [hall]
    exact List.filter_sublist _
  refine ⟨hall, hsub, hsub.length_le, ?_⟩
  unfold keptArrows
  apply List.filter_congr
  intro i hi
  have hlt : i < mags.length := List.mem_range.1 hi
  rw [show showArrowMask (.value t) mags = mags.map (passesThr (.value t) (maxL mags))
    from rfl]
  rw [getD_map_of_lt _ _ _ hlt _ 0]
  rfl

/-! ## Data-driven binning grid and max-aggregation

`viz_2d.py` lines 1226-1281 / `_plot_factory_helper.py` lines 513-579.
`unique_x = np.unique(x_coords)` (sorted distinct values);
`x_spacing = np.diff(unique_x).min() / 2` (or `0.001` for a single value);
edges are `[u₀ - s, u₀ + s, u₁ + s, …]`; `binned_statistic_2d` with
`statistic="max"` assigns each point to the half-open bin
`[eᵢ, eᵢ₊₁)` (the last bin closed on the right) and takes the maximum per
bin, NaN (here `none`) for empty bins. -/

/-- `np.unique`: sorted distinct values. -/
def uniqSorted (l : List ℚ) : List ℚ :=
  l.dedup.insertionSort (· ≤ ·)

/-- `np.diff`: differences of consecutive values. -/
def adjDiffs (u : List ℚ) : List ℚ :=
  (u.zip u.tail).map fun p => p.2 - p.1

/-- `np.diff(unique).min() / 2`, or `0.001` when there is at most one unique
value. -/
def gridSpacing (u : List ℚ) : ℚ :=
  match adjDiffs u with
  | [] => 1 / 1000
  | d :: ds => ds.foldl min d / 2

/-- The grid edges: `u₀ - s` followed by `uᵢ + s` for every unique value. -/
def mkEdges (u : List ℚ) (s : ℚ) : List ℚ :=
  match u with
  | [] => []
  | a :: _ => (a - s) :: u.map (· + s)

/-- The bin index of a value in an edge list: the `i` with
`eᵢ ≤ v < eᵢ₊₁`, the last bin also accepting `v = e_last`
(`binned_statistic_2d` semantics). -/
def binIndexAux (v : ℚ) : List ℚ → Option ℕ
  | [] => none
  | [_] => none
  | a :: b :: rest =>
    if a ≤ v ∧ (v < b ∨ (rest = [] ∧ v = b)) then some 0
    else (binIndexAux v (b :: rest)).map (· + 1)

def xsOf (P : List ActiveSrc) : List ℚ := P.map ActiveSrc.px

def ysOf (P : List ActiveSrc) : List ℚ := P.map ActiveSrc.py

def xEdges (P : List ActiveSrc) : List ℚ :=
  mkEdges (uniqSorted (xsOf P)) (gridSpacing (uniqSorted (xsOf P)))

def yEdges (P : List ActiveSrc) : List ℚ :=
  mkEdges (uniqSorted (ysOf P)) (gridSpacing (uniqSorted (ysOf P)))

/-- The 2D bin of one projected source. -/
def binPair (P : List ActiveSrc) (t : ActiveSrc) : Option ℕ × Option ℕ :=
  (binIndexAux t.px (xEdges P), binIndexAux t.py (yEdges P))

/-- One heatmap cell: the maximum activity among the sources binned there,
`none` (NaN, transparent) when the bin is empty. -/
def cell (P : List ActiveSrc) (i j : ℕ) : Option ℚ :=
  maxQ ((P.filter fun t => decide (binPair P t = (some i, some j))).map ActiveSrc.act)

theorem foldl_min_mem (t : List ℚ) (a : ℚ) : t.foldl min a = a ∨ t.foldl min a ∈ t := by
  induction t generalizing a with
  | nil => exact Or.inl rfl
  | cons c t ih =>
    rcases ih (min a c) with h | h
    · rcases min_cases a c with ⟨h2, _⟩ | ⟨h2, _⟩
      · exact Or.inl (by rw [List.foldl_cons, h, h2])
      · exact Or.inr (by rw [List.foldl_cons, h, h2]; exact List.mem_cons_self c t)
    · exact Or.inr (List.mem_cons_of_mem c h)

theorem uniqSorted_mem {l : List ℚ} {x : ℚ} : x ∈ uniqSorted l ↔ x ∈ l := by
  unfold uniqSorted
  rw [(List.perm_insertionSort (· ≤ ·) l.dedup).mem_iff, List.mem_dedup]

theorem uniqSorted_nodup (l : List ℚ) : (uniqSorted l).Nodup :=
  ((List.perm_insertionSort (· ≤ ·) l.dedup).nodup_iff).2 (List.nodup_dedup l)

theorem uniqSorted_pairwise_lt (l : List ℚ) : (uniqSorted l).Pairwise (· < ·) :=
  List.Sorted.lt_of_le (List.sorted_insertionSort (· ≤ ·) l.dedup) (uniqSorted_nodup l)

theorem adjDiffs_cons (a b : ℚ) (r : List ℚ) :
    adjDiffs (a :: b :: r) = (b - a) :: adjDiffs (b :: r) := rfl

theorem adjDiffs_pos {u : List ℚ} (hu : u.Pairwise (· < ·)) : ∀ d ∈ adjDiffs u, 0 < d := by
  induction u with
  | nil => intro d hd; cases hd
  | cons a rest ih =>
    match rest with
    | [] => intro d hd; cases hd
    | b :: r2 =>
      intro d hd
      rw [adjDiffs_cons] at hd
      rcases List.mem_cons.1 hd with h | h
      · have hab : a < b := (List.pairwise_cons.1 hu).1 b (List.mem_cons_self b r2)
        rw [h]
        linarith
      · exact ih (List.pairwise_cons.1 hu).2 d h

theorem gridSpacing_pos {u : List ℚ} (hu : u.Pairwise (· < ·)) : 0 < gridSpacing u := by
  unfold gridSpacing
  rcases h : adjDiffs u with _ | ⟨d, ds⟩
  · norm_num
  · have hmem : ds.foldl min d ∈ d :: ds := by
      rcases foldl_min_mem ds d with h2 | h2
      · rw [h2]; exact List.mem_cons_self d ds
      · exact List.mem_cons_of_mem d h2
    have hpos : 0 < ds.foldl min d := by
      have := adjDiffs_pos hu (ds.foldl min d) (by rw [h]; exact hmem)
      exact this
    linarith

theorem two_gridSpacing_le_diffs (u : List ℚ) : ∀ d ∈ adjDiffs u, 2 * gridSpacing u ≤ d := by
  unfold gridSpacing
  rcases h : adjDiffs u with _ | ⟨d0, ds⟩
  · intro d hd
    cases hd
  · intro d hd
    show 2 * (ds.foldl min d0 / 2) ≤ d
    have hle : ds.foldl min d0 ≤ d := by
      rcases List.mem_cons.1 hd with h2 | h2
      · rw [h2]; exact foldl_min_le_init ds d0
      · exact foldl_min_le_mem h2 d0
    linarith

theorem chain_of_diffs {u : List ℚ} {c : ℚ} (h : ∀ d ∈ adjDiffs u, c ≤ d) :
    u.Chain' fun a b => a + c ≤ b := by
  induction u with
  | nil => exact List.chain'_nil
  | cons a rest ih =>
    match rest with
    | [] => exact List.chain'_singleton a
    | b :: r2 =>
      rw [List.chain'_cons]
      constructor
      · have hmem : b - a ∈ adjDiffs (a :: b :: r2) := by
          rw [adjDiffs_cons]
          exact List.mem_cons_self _ _
        have := h _ hmem
        linarith
      · refine ih fun d hd => h d ?_
        rw [adjDiffs_cons]
        exact List.mem_cons_of_mem _ hd

theorem pairwise_spacing {u : List ℚ} (hu : u.Pairwise (· < ·)) :
    u.Pairwise fun a b => a + 2 * gridSpacing u ≤ b := by
  have hs : 0 < gridSpacing u := gridSpacing_pos hu
  have hchain : u.Chain' fun a b => a + 2 * gridSpacing u ≤ b :=
    chain_of_diffs (two_gridSpacing_le_diffs u)
  haveI : IsTrans ℚ fun a b => a + 2 * gridSpacing u ≤ b :=
    ⟨fun a b c hab hbc => by
      have h1 : a + 2 * gridSpacing u ≤ b := hab
      have h2 : b + 2 * gridSpacing u ≤ c := hbc
      show a + 2 * gridSpacing u ≤ c
      linarith⟩
  exact List.chain'_iff_pairwise.1 hchain

theorem binIndexAux_cons (s e0 : ℚ) (hs : 0 < s) :
    ∀ (u : List ℚ), (u.Pairwise fun a b => a + 2 * s ≤ b) →
      (∀ x ∈ u, e0 ≤ x - s) →
      ∀ (i : ℕ) (hi : i < u.length),
        binIndexAux (u.get ⟨i, hi⟩) (e0 :: u.map (· + s)) = some i := by
  intro u
  induction u generalizing e0 with
  | nil =>
    intro _ _ i hi
    exact absurd hi (Nat.not_lt_zero i)
  | cons a rest ih =>
    intro hp he0 i hi
    match i with
    | 0 =>
      have h1 : e0 ≤ a := by
        have := he0 a (List.mem_cons_self a rest)
        linarith
      show binIndexAux a (e0 :: (a + s) :: rest.map (· + s)) = some 0
      simp only [binIndexAux]
      rw [if_pos ⟨h1, Or.inl (by linarith)⟩]
    | Nat.succ i0 =>
      have hi0 : i0 < rest.length := Nat.lt_of_succ_lt_succ hi
      have hget : (a :: rest).get ⟨i0 + 1, hi⟩ = rest.get ⟨i0, hi0⟩ := rfl
      rw [hget]
      set v := rest.get ⟨i0, hi0⟩ with hv
      have hvmem : v ∈ rest := List.get_mem rest i0 hi0
      have hrel : a + 2 * s ≤ v := (List.pairwise_cons.1 hp).1 v hvmem
      have hrestne : rest.map (· + s) ≠ [] := by
        intro hcon
        rw [List.map_eq_nil_iff] at hcon
        rw [hcon] at hvmem
        cases hvmem
      show binIndexAux v (e0 :: (a + s) :: rest.map (· + s)) = some (i0 + 1)
      simp only [binIndexAux]
      rw [if_neg (by
        rintro ⟨_, h2 | ⟨h3, _⟩⟩
        · linarith
        · exact hrestne h3)]
      have hrec := ih (a + s) (List.pairwise_cons.1 hp).2
        (fun x hx => by
          have := (List.pairwise_cons.1 hp).1 x hx
          linarith) i0 hi0
      rw [hrec]
      rfl

theorem binIndexAux_mkEdges {u : List ℚ} {s : ℚ} (hs : 0 < s)
    (hp : u.Pairwise fun a b => a + 2 * s ≤ b) {w : ℚ} (hw : w ∈ u) :
    binIndexAux w (mkEdges u s) = some (u.indexOf w) := by
  match u with
  | [] => cases hw
  | a :: rest =>
    have he0 : ∀ x ∈ a :: rest, a - s ≤ x - s := by
      intro x hx
      rcases List.mem_cons.1 hx with h | h
      · rw [h]
      · have := (List.pairwise_cons.1 hp).1 x h
        linarith
    have hidx : (a :: rest).indexOf w < (a :: rest).length :=
      List.indexOf_lt_length.2 hw
    have hget : (a :: rest).get ⟨(a :: rest).indexOf w, hidx⟩ = w := List.indexOf_get hidx
    have := binIndexAux_cons s (a - s) hs (a :: rest) hp he0 ((a :: rest).indexOf w) hidx
    rw [hget] at this
    exact this

/-- Each source is binned at the index of its coordinate among the sorted
unique values, along both axes. -/
theorem binPair_of_mem {P : List ActiveSrc} {t : ActiveSrc} (ht : t ∈ P) :
    binPair P t = (some ((uniqSorted (xsOf P)).indexOf t.px),
                   some ((uniqSorted (ysOf P)).indexOf t.py)) := by
  have hx : t.px ∈ uniqSorted (xsOf P) :=
    uniqSorted_mem.2 (List.mem_map_of_mem ActiveSrc.px ht)
  have hy : t.py ∈ uniqSorted (ysOf P) :=
    uniqSorted_mem.2 (List.mem_map_of_mem ActiveSrc.py ht)
  have hxlt := uniqSorted_pairwise_lt (xsOf P)
  have hylt := uniqSorted_pairwise_lt (ysOf P)
  unfold binPair xEdges yEdges
  rw [binIndexAux_mkEdges (gridSpacing_pos hxlt) (pairwise_spacing hxlt) hx,
    binIndexAux_mkEdges (gridSpacing_pos hylt) (pairwise_spacing hylt) hy]

/-- Two projected sources land in the same bin exactly when they have the
same 2D position, so the heatmap cell of a source's bin is the maximum over
exactly its position-mates. -/
theorem cell_eq_posFilter {P : List ActiveSrc} {s : ActiveSrc} (hs : s ∈ P) :
    cell P ((uniqSorted (xsOf P)).indexOf s.px) ((uniqSorted (ysOf P)).indexOf s.py) =
      maxQ ((P.filter fun t => decide (t.px = s.px ∧ t.py = s.py)).map ActiveSrc.act) := by
  unfold cell
  have hfeq : (P.filter fun t => decide (binPair P t =
        (some ((uniqSorted (xsOf P)).indexOf s.px),
         some ((uniqSorted (ysOf P)).indexOf s.py)))) =
      P.filter fun t => decide (t.px = s.px ∧ t.py = s.py) := by
    apply List.filter_congr
    intro t ht
    rw [binPair_of_mem ht]
    rw [decide_eq_decide]
    constructor
    · intro h
      have h1 : (uniqSorted (xsOf P)).indexOf t.px = (uniqSorted (xsOf P)).indexOf s.px := by
        have := congrArg Prod.fst h
        exact Option.some.inj this
      have h2 : (uniqSorted (ysOf P)).indexOf t.py = (uniqSorted (ysOf P)).indexOf s.py := by
        have := congrArg Prod.snd h
        exact Option.some.inj this
      constructor
      · exact (List.indexOf_inj
          (uniqSorted_mem.2 (List.mem_map_of_mem ActiveSrc.px ht))
          (uniqSorted_mem.2 (List.mem_map_of_mem ActiveSrc.px hs))).1 h1
      · exact (List.indexOf_inj
          (uniqSorted_mem.2 (List.mem_map_of_mem ActiveSrc.py ht))
          (uniqSorted_mem.2 (List.mem_map_of_mem ActiveSrc.py hs))).1 h2
    · intro h
      rw [h.1, h.2]
  rw [hfeq]

/-- C1: for every rendered brain view, the heatmap cell a projected source
falls into (via the data-driven edges) is indexed by the position of its
coordinates among the sorted unique values, its value is the maximum of the
activities of exactly the sources sharing that 2D position (`maxQ` of their
activity list — never a sum or mean), and every bin containing no source is
`none` (NaN, rendered transparent). -/
theorem projection_bin_max (viewName : String) (coords : List V3) (act : List ℚ)
    (vecs : List V3) (P : List ActiveSrc)
    (hP : P = projectView viewName coords act vecs)
    (s : ActiveSrc) (hs : s ∈ P) (i j : ℕ)
    (hempty : (P.filter fun t => decide (binPair P t = (some i, some j))) = []) :
    binPair P s = (some ((uniqSorted (xsOf P)).indexOf s.px),
                   some ((uniqSorted (ysOf P)).indexOf s.py)) ∧
    cell P ((uniqSorted (xsOf P)).indexOf s.px) ((uniqSorted (ysOf P)).indexOf s.py) =
      maxQ ((P.filter fun t => decide (t.px = s.px ∧ t.py = s.py)).map ActiveSrc.act) ∧
    cell P i j = none := by
  refine ⟨binPair_of_mem hs, cell_eq_posFilter hs, ?_⟩
  unfold cell
  rw [hempty]
  rfl

/-- Concrete inputs for the C1 witness: three sources, the first two sharing
the axial 2D position `(0, 0)`. -/
def c1Coords : List V3 := [⟨0, 0, 0⟩, ⟨0, 0, 1⟩, ⟨1, 2, 0⟩]

def c1Act : List ℚ := [3, 5, 4]

def c1Vecs : List V3 := [⟨0, 0, 0⟩, ⟨0, 0, 0⟩, ⟨0, 0, 0⟩]

def c1P : List ActiveSrc := projectView "axial" c1Coords c1Act c1Vecs

def c1S : ActiveSrc := ⟨0, 0, 3, 0, 0, 0⟩

/-- Witness for C1 on the axial view of three concrete sources; bin `(0,1)`
is empty there. -/
theorem projection_bin_max_witness :
    binPair c1P c1S = (some ((uniqSorted (xsOf c1P)).indexOf c1S.px),
                       some ((uniqSorted (ysOf c1P)).indexOf c1S.py)) ∧
    cell c1P ((uniqSorted (xsOf c1P)).indexOf c1S.px)
        ((uniqSorted (ysOf c1P)).indexOf c1S.py) =
      maxQ ((c1P.filter fun t => decide (t.px = c1S.px ∧ t.py = c1S.py)).map ActiveSrc.act) ∧
    cell c1P 0 1 = none :=
  projection_bin_max "axial" c1Coords c1Act c1Vecs c1P rfl c1S
    (by with_unfolding_all decide) 0 1 (by with_unfolding_all decide)

/-! ## Representative-arrow selection per 2D position

`viz_2d.py` lines 1306-1342 and `_plot_factory_helper.py` lines 606-654.
A dictionary keyed by 2D position is filled by scanning all sources in
order, skipping those failing the threshold mask, and keeping for each
position the source with the strictly largest activity (first wins ties).
The `liveneuro` variant literally compares `active_activity`; the
`eelbrain_plotly_viz` variant compares `arrow_magnitudes`, which is the same
array for vector data (both are the norms of `active_vectors`). -/

def maskAt (thr : ArrowThreshold) (P : List ActiveSrc) (i : ℕ) : Bool :=
  passesThr thr (maxL (P.map ActiveSrc.act)) ((P.getD i default).act)

def posAt (P : List ActiveSrc) (i : ℕ) : ℚ × ℚ :=
  ((P.getD i default).px, (P.getD i default).py)

def actAt (P : List ActiveSrc) (i : ℕ) : ℚ := (P.getD i default).act

/-- Dictionary lookup (`pos_key in position_to_max_idx`). -/
def lookupA (m : List ((ℚ × ℚ) × ℕ)) (p : ℚ × ℚ) : Option ℕ :=
  (m.find? fun e => decide (e.1 = p)).map Prod.snd

/-- Dictionary value replacement (`position_to_max_idx[pos_key] = i`). -/
def updateA (m : List ((ℚ × ℚ) × ℕ)) (p : ℚ × ℚ) (i : ℕ) : List ((ℚ × ℚ) × ℕ) :=
  m.map fun e => if e.1 = p then (p, i) else e

/-- One iteration of the selection loop at source index `k`. -/
def selStep (thr : ArrowThreshold) (P : List ActiveSrc)
    (m : List ((ℚ × ℚ) × ℕ)) (k : ℕ) : List ((ℚ × ℚ) × ℕ) :=
  if maskAt thr P k then
    match lookupA m (posAt P k) with
    | none => m ++ [(posAt P k, k)]
    | some j => if actAt P j < actAt P k then updateA m (posAt P k) k else m
  else m

/-- `position_to_max_idx` after scanning all sources. -/
def selectReps (thr : ArrowThreshold) (P : List ActiveSrc) : List ((ℚ × ℚ) × ℕ) :=
  (List.range P.length).foldl (selStep thr P) []

theorem lookupA_nil (p : ℚ × ℚ) : lookupA [] p = none := rfl

theorem lookupA_cons (e : (ℚ × ℚ) × ℕ) (m : List ((ℚ × ℚ) × ℕ)) (p : ℚ × ℚ) :
    lookupA (e :: m) p = if e.1 = p then some e.2 else lookupA m p := by
  unfold lookupA
  by_cases h : e.1 = p
  · simp [List.find?_cons, h]
  · simp [List.find?_cons, h]

theorem lookupA_append_single (m : List ((ℚ × ℚ) × ℕ)) (p q : ℚ × ℚ) (i : ℕ) :
    lookupA (m ++ [(p, i)]) q =
      match lookupA m q with
      | some j => some j
      | none => if p = q then some i else none := by
  induction m with
  | nil =>
    rw [List.nil_append, lookupA_cons, lookupA_nil]
  | cons e m ih =>
    rw [List.cons_append, lookupA_cons, lookupA_cons]
    by_cases h : e.1 = q
    · rw [if_pos h, if_pos h]
    · rw [if_neg h, if_neg h, ih]

theorem lookupA_update (m : List ((ℚ × ℚ) × ℕ)) (p q : ℚ × ℚ) (i : ℕ) :
    lookupA (updateA m p i) q =
      match lookupA m q with
      | none => none
      | some j => if p = q then some i else some j := by
  induction m with
  | nil => rfl
  | cons e m ih =>
    show lookupA ((if e.1 = p then (p, i) else e) :: updateA m p i) q = _
    by_cases hep : e.1 = p
    · rw [if_pos hep, lookupA_cons, lookupA_cons]
      by_cases hpq : p = q
      · rw [if_pos (show ((p, i) : (ℚ × ℚ) × ℕ).1 = q from hpq),
          if_pos (show e.1 = q from hep.trans hpq)]
        show some i = if p = q then some i else some e.2
        rw [if_pos hpq]
      · rw [if_neg (show ¬(((p, i) : (ℚ × ℚ) × ℕ).1 = q) from hpq),
          if_neg (show ¬(e.1 = q) from fun hc => hpq (hep.symm.trans hc)), ih]
    · rw [if_neg hep, lookupA_cons, lookupA_cons]
      by_cases heq : e.1 = q
      · rw [if_pos heq, if_pos heq]
        have hpq : ¬(p = q) := fun hc => hep (heq.trans hc.symm)
        show some e.2 = if p = q then some i else some e.2
        rw [if_neg hpq]
      · rw [if_neg heq, if_neg heq, ih]

/-- Invariant of the selection loop after scanning the first `k` sources:
every stored entry is a masked source at its key position carrying the
maximum activity among the masked sources scanned so far at that position,
and every position without an entry has no masked source so far. -/
def SelInv (thr : ArrowThreshold) (P : List ActiveSrc)
    (m : List ((ℚ × ℚ) × ℕ)) (k : ℕ) : Prop :=
  (∀ q j, lookupA m q = some j →
    j < k ∧ maskAt thr P j = true ∧ posAt P j = q ∧
      ∀ l, l < k → maskAt thr P l = true → posAt P l = q → actAt P l ≤ actAt P j) ∧
  (∀ q, lookupA m q = none → ∀ l, l < k → maskAt thr P l = true → posAt P l ≠ q)

theorem selInv_zero (thr : ArrowThreshold) (P : List ActiveSrc) : SelInv thr P [] 0 := by
  constructor
  · intro q j h
    cases h
  · intro q _ l hl
    exact absurd hl (Nat.not_lt_zero l)

theorem selInv_step {thr : ArrowThreshold} {P : List ActiveSrc}
    {m : List ((ℚ × ℚ) × ℕ)} {k : ℕ} (hinv : SelInv thr P m k) :
    SelInv thr P (selStep thr P m k) (k + 1) := by
  obtain ⟨hsome, hnone⟩ := hinv
  unfold selStep
  by_cases hm : maskAt thr P k = true
  case neg =>
    rw [if_neg hm]
    constructor
    · intro q j h
      obtain ⟨hjk, hmj, hpj, hmax⟩ := hsome q j h
      refine ⟨Nat.lt_succ_of_lt hjk, hmj, hpj, ?_⟩
      intro l hl hml hpl
      rcases Nat.lt_succ_iff_lt_or_eq.1 hl with h2 | h2
      · exact hmax l h2 hml hpl
      · subst h2
        exact absurd hml hm
    · intro q h l hl hml hpl
      rcases Nat.lt_succ_iff_lt_or_eq.1 hl with h2 | h2
      · exact hnone q h l h2 hml hpl
      · subst h2
        exact absurd hml hm
  case pos =>
    rw [if_pos hm]
    rcases hlook : lookupA m (posAt P k) with _ | j0
    · show SelInv thr P (m ++ [(posAt P k, k)]) (k + 1)
      constructor
      · intro q j h
        rw [lookupA_append_single] at h
        rcases hq : lookupA m q with _ | j1
        · rw [hq] at h
          by_cases hpq : posAt P k = q
          · rw [if_pos hpq] at h
            obtain rfl : k = j := Option.some.inj h
            refine ⟨Nat.lt_succ_self k, hm, hpq, ?_⟩
            intro l hl hml hpl
            rcases Nat.lt_succ_iff_lt_or_eq.1 hl with h2 | h2
            · exact (hnone q hq l h2 hml hpl).elim
            · subst h2
              exact le_refl _
          · rw [if_neg hpq] at h
            cases h
        · rw [hq] at h
          obtain rfl : j1 = j := Option.some.inj h
          obtain ⟨hjk, hmj, hpj, hmax⟩ := hsome _ _ hq
          refine ⟨Nat.lt_succ_of_lt hjk, hmj, hpj, ?_⟩
          intro l hl hml hpl
          rcases Nat.lt_succ_iff_lt_or_eq.1 hl with h2 | h2
          · exact hmax l h2 hml hpl
          · subst h2
            rw [hpl] at hlook
            rw [hlook] at hq
            cases hq
      · intro q h l hl hml hpl
        rw [lookupA_append_single] at h
        rcases hq : lookupA m q with _ | j1
        · rw [hq] at h
          by_cases hpq : posAt P k = q
          · rw [if_pos hpq] at h
            cases h
          · rcases Nat.lt_succ_iff_lt_or_eq.1 hl with h2 | h2
            · exact hnone q hq l h2 hml hpl
            · subst h2
              exact hpq hpl
        · rw [hq] at h
          cases h
    · obtain ⟨hj0k, hmj0, hpj0, hmax0⟩ := hsome (posAt P k) j0 hlook
      show SelInv thr P (if actAt P j0 < actAt P k then updateA m (posAt P k) k else m) (k + 1)
      by_cases hcmp : actAt P j0 < actAt P k
      · rw [if_pos hcmp]
        constructor
        · intro q j h
          rw [lookupA_update] at h
          rcases hq : lookupA m q with _ | j1
          · rw [hq] at h
            have h3 : (none : Option ℕ) = some j := h
            cases h3
          · rw [hq] at h
            have h3 : (if posAt P k = q then some k else some j1) = some j := h
            by_cases hpq : posAt P k = q
            · rw [if_pos hpq] at h3
              obtain rfl : k = j := Option.some.inj h3
              refine ⟨Nat.lt_succ_self k, hm, hpq, ?_⟩
              intro l hl hml hpl
              rcases Nat.lt_succ_iff_lt_or_eq.1 hl with h2 | h2
              · have hle : actAt P l ≤ actAt P j0 := by
                  refine hmax0 l h2 hml ?_
                  rw [hpl, ← hpq]
                linarith
              · subst h2
                exact le_refl _
            · rw [if_neg hpq] at h3
              obtain rfl : j1 = j := Option.some.inj h3
              obtain ⟨hjk, hmj, hpj, hmax⟩ := hsome _ _ hq
              refine ⟨Nat.lt_succ_of_lt hjk, hmj, hpj, ?_⟩
              intro l hl hml hpl
              rcases Nat.lt_succ_iff_lt_or_eq.1 hl with h2 | h2
              · exact hmax l h2 hml hpl
              · subst h2
                exact absurd hpl hpq
        · intro q h l hl hml hpl
          rw [lookupA_update] at h
          rcases hq : lookupA m q with _ | j1
          · rcases Nat.lt_succ_iff_lt_or_eq.1 hl with h2 | h2
            · exact hnone q hq l h2 hml hpl
            · subst h2
              rw [hpl] at hlook
              rw [hq] at hlook
              cases hlook
          · rw [hq] at h
            have h3 : (if posAt P k = q then some k else some j1) = none := h
            by_cases hpq : posAt P k = q
            · rw [if_pos hpq] at h3
              cases h3
            · rw [if_neg hpq] at h3
              cases h3
      · rw [if_neg hcmp]
        constructor
        · intro q j h
          obtain ⟨hjk, hmj, hpj, hmax⟩ := hsome q j h
          refine ⟨Nat.lt_succ_of_lt hjk, hmj, hpj, ?_⟩
          intro l hl hml hpl
          rcases Nat.lt_succ_iff_lt_or_eq.1 hl with h2 | h2
          · exact hmax l h2 hml hpl
          · subst h2
            rw [← hpl] at h
            rw [hlook] at h
            obtain rfl : j0 = j := Option.some.inj h
            exact not_lt.1 hcmp
        · intro q h l hl hml hpl
          rcases Nat.lt_succ_iff_lt_or_eq.1 hl with h2 | h2
          · exact hnone q h l h2 hml hpl
          · subst h2
            rw [hpl] at hlook
            rw [h] at hlook
            cases hlook

theorem selInv_selectReps (thr : ArrowThreshold) (P : List ActiveSrc) :
    SelInv thr P (selectReps thr P) P.length := by
  unfold selectReps
  generalize P.length = n
  induction n with
  | zero => exact selInv_zero thr P
  | succ n ih =>
    rw [List.range_succ, List.foldl_append]
    exact selInv_step ih

/-- The threshold mask is monotone in the magnitude: anything at least as
large as a passing magnitude also passes. -/
theorem passesThr_mono {thr : ArrowThreshold} {mx a b : ℚ}
    (h : passesThr thr mx a = true) (hab : a ≤ b) : passesThr thr mx b = true := by
  cases thr with
  | noThreshold => rfl
  | auto =>
    have h2 : 1 / 10 * mx < a := of_decide_eq_true h
    exact decide_eq_true (by linarith)
  | value t =>
    have h2 : t < a := of_decide_eq_true h
    exact decide_eq_true (by linarith)

/-- C2: every entry of `position_to_max_idx` points at a source at its key
position that passes the threshold mask and whose activity is the maximum
original 3D activity among ALL sources sharing that 2D position (the mask is
monotone in the same activity, so masked-out sources cannot beat it); the
heatmap cell of that position aggregates to exactly the same value, so the
representative arrow and the heatmap max-bin winner agree. -/
theorem projection_arrow_representative (viewName : String) (coords : List V3)
    (act : List ℚ) (vecs : List V3) (P : List ActiveSrc)
    (hP : P = projectView viewName coords act vecs) (thr : ArrowThreshold)
    (q : ℚ × ℚ) (i : ℕ) (hsel : lookupA (selectReps thr P) q = some i) :
    i < P.length ∧ posAt P i = q ∧ maskAt thr P i = true ∧
    maxQ ((P.filter fun t => decide (t.px = q.1 ∧ t.py = q.2)).map ActiveSrc.act) =
      some (actAt P i) ∧
    cell P ((uniqSorted (xsOf P)).indexOf q.1) ((uniqSorted (ysOf P)).indexOf q.2) =
      some (actAt P i) := by
  obtain ⟨hsome, _⟩ := selInv_selectReps thr P
  obtain ⟨hilen, hmask, hpos, hmax⟩ := hsome q i hsel
  have hall : ∀ l, l < P.length → posAt P l = q → actAt P l ≤ actAt P i := by
    intro l hl hpl
    by_cases hml : maskAt thr P l = true
    · exact hmax l hl hml hpl
    · by_contra hgt
      push_neg at hgt
      have hm2 : passesThr thr (maxL (P.map ActiveSrc.act)) (actAt P i) = true := hmask
      have : passesThr thr (maxL (P.map ActiveSrc.act)) (actAt P l) = true :=
        passesThr_mono hm2 (le_of_lt hgt)
      exact hml this
  have hsmem : P.getD i default ∈ P := by
    have hg : P.getD i default = P[i] := by
      rw [List.getD_eq_getElem?_getD, List.getElem?_eq_getElem hilen]
      rfl
    rw [hg]
    exact List.getElem_mem hilen
  have hpx : (P.getD i default).px = q.1 := congrArg Prod.fst hpos
  have hpy : (P.getD i default).py = q.2 := congrArg Prod.snd hpos
  have hfilter_max :
      maxQ ((P.filter fun t => decide (t.px = q.1 ∧ t.py = q.2)).map ActiveSrc.act) =
        some (actAt P i) := by
    apply maxQ_eq_some
    · exact List.mem_map_of_mem _ (List.mem_filter.2 ⟨hsmem, decide_eq_true ⟨hpx, hpy⟩⟩)
    · intro x hx
      obtain ⟨t, htf, rfl⟩ := List.mem_map.1 hx
      obtain ⟨htP, htq⟩ := List.mem_filter.1 htf
      have htq2 : t.px = q.1 ∧ t.py = q.2 := of_decide_eq_true htq
      obtain ⟨n, hget⟩ := List.mem_iff_get.1 htP
      have hgd : P.getD n.1 default = t := by
        rw [List.getD_eq_getElem?_getD, List.getElem?_eq_getElem n.2]
        rw [← hget]
        rfl
      have hposn : posAt P n.1 = q := by
        show ((P.getD n.1 default).px, (P.getD n.1 default).py) = q
        rw [hgd, htq2.1, htq2.2]
      have hle : actAt P n.1 ≤ actAt P i := hall n.1 n.2 hposn
      have hact : t.act = actAt P n.1 := by
        show t.act = (P.getD n.1 default).act
        rw [hgd]
      rw [hact]
      exact hle
  refine ⟨hilen, hpos, hmask, hfilter_max, ?_⟩
  have hcell := cell_eq_posFilter hsmem
  rw [hpx, hpy] at hcell
  rw [hcell, hfilter_max]

/-- Witness for C2 on the same concrete axial slice used for C1: sources 0
and 1 share position `(0, 0)` with activities 3 and 5; the dictionary keeps
source 1, which also carries the heatmap cell value 5. -/
theorem projection_arrow_representative_witness :
    1 < c1P.length ∧ posAt c1P 1 = ((0 : ℚ), (0 : ℚ)) ∧
    maskAt ArrowThreshold.noThreshold c1P 1 = true ∧
    maxQ ((c1P.filter fun t =>
        decide (t.px = ((0 : ℚ), (0 : ℚ)).1 ∧ t.py = ((0 : ℚ), (0 : ℚ)).2)).map
        ActiveSrc.act) = some (actAt c1P 1) ∧
    cell c1P ((uniqSorted (xsOf c1P)).indexOf ((0 : ℚ), (0 : ℚ)).1)
        ((uniqSorted (ysOf c1P)).indexOf ((0 : ℚ), (0 : ℚ)).2) = some (actAt c1P 1) :=
  projection_arrow_representative "axial" c1Coords c1Act c1Vecs c1P rfl
    ArrowThreshold.noThreshold (0, 0) 1 (by with_unfolding_all decide)
